import Mathlib

/-!
Verification of the parameter-resolution and request-materialization core of
`src/apirequest.ts` (the `createAPIRequest` / `createAPIRequestAsync` routine).

The embedding models JavaScript objects as insertion-ordered association lists
(`JsObj`), JavaScript runtime values as the inductive `Value` (covering the
value shapes the routine inspects: `undefined`, `null`, booleans, strings,
readable streams, and plain objects), and the external collaborators
(RFC 6570 URL-template expansion, the uuid boundary generator, browser
detection, the package version) as an explicit environment `Env`.  The
asynchronous pipeline `createAPIRequestAsync` is modelled as a pure function
returning either a structured `MissingParams` error or the fully resolved
request (resolved parameter map, merged transport options, and the dispatch
branch), together with the final state of the caller-visible
`APIRequestParams` record (the source mutates `parameters.mediaUrl`, the
per-client default-params store, the caller's `options.headers` object and
the caller's `options.userAgentDirectives` array in place).
-/

set_option linter.unusedVariables false

namespace ApiRequest

/-- JavaScript runtime values, as far as `apirequest.ts` inspects them.  A
readable stream is represented by the list of chunks it will eventually
yield. -/
inductive Value where
  | vUndefined : Value
  | vNull : Value
  | vBool : Bool → Value
  | vStr : String → Value
  | vStream : List String → Value
  | vObj : List (String × Value) → Value

/-- A JavaScript object: an insertion-ordered list of key/value fields. -/
abbrev JsObj := List (String × Value)

/-- Property read `o[k]`: a missing key yields `undefined`. -/
def objGet : JsObj → String → Value
  | [], _ => .vUndefined
  | (k', v) :: rest, k => if k' = k then v else objGet rest k

/-- Property write `o[k] = v`: an existing key keeps its position, a new key
is appended (JavaScript insertion order). -/
def objSet : JsObj → String → Value → JsObj
  | [], k, v => [(k, v)]
  | (k', v') :: rest, k, v =>
      if k' = k then (k', v) :: rest else (k', v') :: objSet rest k v

/-- Property removal `delete o[k]`. -/
def objDelete : JsObj → String → JsObj
  | [], _ => []
  | (k', v) :: rest, k =>
      if k' = k then objDelete rest k else (k', v) :: objDelete rest k

/-- Key presence (`k in o`): true even when the stored value is `undefined`. -/
def objHas : JsObj → String → Bool
  | [], _ => false
  | (k', _) :: rest, k => if k' = k then true else objHas rest k

/-- `Object.keys o` in insertion order. -/
def objKeys (o : JsObj) : List String := o.map Prod.fst

/-- `Object.assign target source`: copy every own key of `source`, in order,
onto `target` (explicit `undefined` values are copied too). -/
def objAssign (target source : JsObj) : JsObj :=
  source.foldl (fun acc kv => objSet acc kv.1 kv.2) target

/-- JavaScript truthiness for the modelled values. -/
def truthy : Value → Bool
  | .vUndefined => false
  | .vNull => false
  | .vBool b => b
  | .vStr s => s ≠ ""
  | .vStream _ => true
  | .vObj _ => true

/-- Test for the `undefined` value (the `=== undefined` comparison). -/
def isUndefined : Value → Bool
  | .vUndefined => true
  | _ => false

/-- The JavaScript `a || b` operator on values. -/
def jsOr (a b : Value) : Value := if truthy a then a else b

/-- The JavaScript `a && b` operator on values. -/
def jsAnd (a b : Value) : Value := if truthy a then b else a

/-- Property access `v.k` on an arbitrary value: objects look the key up,
every other value yields `undefined` (good enough for the shapes the routine
reads fields from). -/
def vGetField (v : Value) (k : String) : Value :=
  match v with
  | .vObj fs => objGet fs k
  | _ => .vUndefined

/-- View a value as object fields (used where the source hands a value to an
object-consuming operation such as `extend`). -/
def asObjFields : Value → JsObj
  | .vObj fs => fs
  | _ => []

/-- String conversion performed by template-literal interpolation. -/
def valueToString : Value → String
  | .vStr s => s
  | .vBool true => "true"
  | .vBool false => "false"
  | .vNull => "null"
  | .vUndefined => "undefined"
  | .vStream _ => "[object Object]"
  | .vObj _ => "[object Object]"

/-- Test `key.slice(-1) === '_'` from the un-aliasing loop: the last
character of the key is the alias marker. -/
def lastCharIsUnderscore (s : String) : Bool :=
  match s.data.getLast? with
  | some c => c == '_'
  | none => false

/-- The rename target `key.slice(0, -1)`: the key without its last
character. -/
def stripLast (s : String) : String := String.mk s.data.dropLast

/-- Truthiness of an optional string (`undefined` or a string). -/
def strOptTruthy : Option String → Bool
  | none => false
  | some s => s ≠ ""

/-- Escape of one character in a JSON string literal. -/
def jsonEscapeChar (c : Char) : String :=
  if c = '"' then "\\\"" else if c = '\\' then "\\\\" else String.singleton c

/-- Escape of a JSON string body. -/
def jsonEscape (s : String) : String := String.join (s.data.map jsonEscapeChar)

/-- Model of `JSON.stringify` for the value shapes the routine serializes
(the multipart metadata part): strings, booleans, `null`, and plain objects;
object fields holding `undefined` are omitted, exactly as `JSON.stringify`
omits them. -/
def jsonStringify : Value → String
  | .vNull => "null"
  | .vUndefined => "null"
  | .vBool true => "true"
  | .vBool false => "false"
  | .vStr s => "\"" ++ jsonEscape s ++ "\""
  | .vStream _ => "\x7b\x7d"
  | .vObj fs => "\x7b" ++ String.intercalate "," (jsonFields fs) ++ "\x7d"
where
  jsonFields : List (String × Value) → List String
    | [] => []
    | (_, .vUndefined) :: rest => jsonFields rest
    | (k, v) :: rest =>
        ("\"" ++ jsonEscape k ++ "\":" ++ jsonStringify v) :: jsonFields rest

/-- Deep overwrite merge `extend(true, target, source)` (the `extend`
package): source keys are copied in order onto the target; a plain-object
source value is merged recursively into the target's object value (or into a
fresh object when the target value is not an object); an `undefined` source
value is skipped; every other value overwrites. -/
def extendDeep : JsObj → JsObj → JsObj
  | t, [] => t
  | t, (k, v) :: rest => extendDeep (extendEntry t k v) rest
where
  extendEntry : JsObj → String → Value → JsObj
    | t, k, .vObj sf => objSet t k (.vObj (extendDeep (asObjFields (objGet t k)) sf))
    | t, _, .vUndefined => t
    | t, k, v => objSet t k v

/-- One `userAgentDirectives` entry. -/
structure UADirective where
  product : String
  version : String
  comment : Option String := none

/-- The outgoing body (`options.data`): either a plain value (raw string,
stream, object, or `undefined`) or the multipart stream assembled in-line,
represented by the chunks it pushes in order. -/
inductive DataOut where
  | val : Value → DataOut
  | multipartStream : List String → DataOut

/-- The transport-option bag (`GaxiosOptions` as used by the routine): only
the fields the routine reads or writes are modelled. -/
structure GOpts where
  url : Option String := none
  params : Option JsObj := none
  auth : Value := .vUndefined
  headers : Option JsObj := none
  data : DataOut := .val .vUndefined
  validateStatus : Option (Int → Bool) := none
  retry : Option Bool := none
  userAgentDirectives : Option (List UADirective) := none

/-- The `google` top-level context (`parameters.context.google`). -/
structure GoogleCtx where
  _options : GOpts

/-- The per-client context (`parameters.context`). -/
structure Context where
  _options : GOpts
  google : Option GoogleCtx := none

/-- The input descriptor `APIRequestParams`. -/
structure APIRequestParams where
  params : JsObj
  options : GOpts := {}
  requiredParams : List String := []
  pathParams : List String := []
  mediaUrl : Option String := none
  context : Context := { _options := {} }

/-- The external collaborators: browser detection, RFC 6570 template
expansion, the uuid boundary generator, and the package version read from
`package.json`. -/
structure Env where
  isBrowser : Bool
  expand : String → JsObj → String
  uuid : String
  pkgVersion : String

/-- Errors surfaced by the routine: the missing-required-parameters
validation failure, carrying the ordered list of missing names (the source
throws `Error('Missing required parameters: ' + missing.join(', '))`). -/
inductive ApiError where
  | missingParams : List String → ApiError

/-- The dispatch branch taken at the end of the routine. -/
inductive Executor where
  | oauthClient : Executor
  | defaultTransporter : Executor

/-- The outcome handed to dispatch: the resolved parameter map (the
routine's `params` variable, i.e. `options.params`), the merged transport
options, and the executor choice. -/
structure ResolvedRequest where
  params : JsObj
  mergedOptions : GOpts
  executor : Executor

/-- Source `getMissingParams` (lines 33-45): the required names whose value
in the params object is `undefined`, in the order of `required`; `null`
(here `none`) when none are missing. -/
def getMissingParams (params : JsObj) (required : List String) : Option (List String) :=
  let missing := required.filter (fun p => isUndefined (objGet params p))
  if missing.length > 0 then some missing else none

/-- Lines 77-82: the global default params
(`parameters.context.google._options.params`, when the google context and
its params object exist, else `\x7b\x7d`). -/
def topOptionsParams (P : APIRequestParams) : JsObj :=
  match P.context.google with
  | some g => (g._options.params).getD []
  | none => []

/-- Lines 83-88: `Object.assign(\x7b\x7d, topOptions, context params, call params)`
(an `undefined` context-params source is skipped by `Object.assign`). -/
def mergedParams (P : APIRequestParams) : JsObj :=
  objAssign (objAssign (objAssign [] (topOptionsParams P))
      ((P.context._options.params).getD [])) P.params

/-- Line 90: `const media = params.media || \x7b\x7d`. -/
def media (P : APIRequestParams) : Value :=
  jsOr (objGet (mergedParams P) "media") (.vObj [])

/-- Line 106: `params.requestBody ? params.requestBody : params.resource`. -/
def resourceBody (P : APIRequestParams) : Value :=
  if truthy (objGet (mergedParams P) "requestBody")
  then objGet (mergedParams P) "requestBody"
  else objGet (mergedParams P) "resource"

/-- Lines 107-110: delete `resource` only when `requestBody` is falsy and
`resource` truthy, then always delete `requestBody`. -/
def paramsAfterBody (P : APIRequestParams) : JsObj :=
  let m := mergedParams P
  let m1 :=
    if !truthy (objGet m "requestBody") && truthy (objGet m "resource")
    then objDelete m "resource" else m
  objDelete m1 "requestBody"

/-- Lines 112-117: credential resolution
`params.auth || context._options.auth || (google ? google._options.auth : null)`. -/
def authClient0 (P : APIRequestParams) : Value :=
  jsOr (jsOr (objGet (paramsAfterBody P) "auth") P.context._options.auth)
    (match P.context.google with
     | some g => g._options.auth
     | none => .vNull)

/-- Lines 119-120: `'text/plain'` when `media.body` is a string, else
`'application/octet-stream'`. -/
def defaultMime (P : APIRequestParams) : String :=
  match vGetField (media P) "body" with
  | .vStr _ => "text/plain"
  | _ => "application/octet-stream"

/-- Lines 121-122: `delete params.media; delete params.auth`. -/
def paramsNoMediaAuth (P : APIRequestParams) : JsObj :=
  objDelete (objDelete (paramsAfterBody P) "media") "auth"

/-- Lines 124-125: `const headers = params.headers || \x7b\x7d` (as object
fields). -/
def userHeaders (P : APIRequestParams) : JsObj :=
  asObjFields (jsOr (objGet (paramsNoMediaAuth P) "headers") (.vObj []))

/-- Line 126: `delete params.headers`. -/
def paramsNoHeaders (P : APIRequestParams) : JsObj :=
  objDelete (paramsNoMediaAuth P) "headers"

/-- One iteration of the un-aliasing loop body (lines 130-134). -/
def unaliasStep (acc : JsObj) (key : String) : JsObj :=
  if lastCharIsUnderscore key
  then objDelete (objSet acc (stripLast key) (objGet acc key)) key
  else acc

/-- Lines 129-135: `Object.keys(params).forEach` over a snapshot of the
keys, renaming every key ending in `_` to its marker-stripped base name
(overwriting the base key) and deleting the marked key. -/
def unalias (m : JsObj) : JsObj := (objKeys m).foldl unaliasStep m

/-- The parameter map at the required-parameter check (after merge, body
resolution, media/auth/headers extraction, and un-aliasing). -/
def paramsUnaliased (P : APIRequestParams) : JsObj := unalias (paramsNoHeaders P)

/-- Lines 137-138: the missing-required-parameter computation. -/
def missingOf (P : APIRequestParams) : Option (List String) :=
  getMissingParams (paramsUnaliased P) P.requiredParams

/-- Lines 146-148: expand `options.url` when truthy. -/
def expandedUrl (env : Env) (P : APIRequestParams) : Option String :=
  match P.options.url with
  | none => none
  | some u => if u = "" then some u else some (env.expand u (paramsUnaliased P))

/-- Lines 149-151: expand `parameters.mediaUrl` when truthy (this is written
back into the caller's descriptor). -/
def expandedMediaUrl (env : Env) (P : APIRequestParams) : Option String :=
  match P.mediaUrl with
  | none => none
  | some u => if u = "" then some u else some (env.expand u (paramsUnaliased P))

/-- Lines 164-165: delete every path parameter from the params object. -/
def paramsStripped (P : APIRequestParams) : JsObj :=
  P.pathParams.foldl objDelete (paramsUnaliased P)

/-- Lines 166-172: delete every path parameter from the per-client
default-params store as well, when that store exists. -/
def ctxParamsStripped (P : APIRequestParams) : Option JsObj :=
  match P.context._options.params with
  | some store => some (P.pathParams.foldl objDelete store)
  | none => none

/-- Lines 176-179: when the credential is a string, treat it as an API key:
`params.key = params.key || authClient`. -/
def paramsWithKey (P : APIRequestParams) : JsObj :=
  match authClient0 P with
  | .vStr s =>
      objSet (paramsStripped P) "key" (jsOr (objGet (paramsStripped P) "key") (.vStr s))
  | _ => paramsStripped P

/-- Lines 176-179: the credential after the API-key step (a string
credential is cleared). -/
def authClient1 (P : APIRequestParams) : Value :=
  match authClient0 P with
  | .vStr _ => .vUndefined
  | a => a

/-- The media-body field `media.body`. -/
def mediaBody (P : APIRequestParams) : Value := vGetField (media P) "body"

/-- Line 181: `parameters.mediaUrl && media.body` (with `parameters.mediaUrl`
already expanded). -/
def isMediaCase (env : Env) (P : APIRequestParams) : Bool :=
  strOptTruthy (expandedMediaUrl env P) && truthy (mediaBody P)

/-- Lines 187-228: the chunks pushed into the assembled multipart stream,
in order.  For each part: the `--boundary\r\nContent-Type: ...\r\n\r\n`
preamble, then the body and a trailing CRLF for a string body, or the
forwarded chunks for a stream body; then the closing `--boundary--`
immediately when the media body is a string, or `\r\n--boundary--` at
flush time (media-stream exhaustion) otherwise. -/
def multipartChunks (resource mediaV : Value) (defMime boundary : String) : List String :=
  let parts : List (Value × Value) :=
    [(.vStr "application/json", .vStr (jsonStringify resource)),
     (jsOr (jsOr (vGetField mediaV "mimeType") (jsAnd resource (vGetField resource "mimeType")))
        (.vStr defMime),
      vGetField mediaV "body")]
  let finale := "--" ++ boundary ++ "--"
  let isStream :=
    match vGetField mediaV "body" with
    | .vStream _ => true
    | _ => false
  let partChunks :=
    parts.foldl
      (fun acc part =>
        acc ++
          ["--" ++ boundary ++ "\r\nContent-Type: " ++ valueToString part.1 ++ "\r\n\r\n"] ++
          (match part.2 with
           | .vStr s => [s, "\r\n"]
           | .vStream cs => cs
           | _ => []))
      []
  partChunks ++ (if isStream then ["\r\n", finale] else [finale])

/-- The resolved parameter map after the body/media branch (lines 181-236):
the multipart and simple-media branches add an `uploadType` entry. -/
def resolvedParamsFinal (env : Env) (P : APIRequestParams) : JsObj :=
  if isMediaCase env P then
    if truthy (resourceBody P)
    then objSet (paramsWithKey P) "uploadType" (.vStr "multipart")
    else objSet (paramsWithKey P) "uploadType" (.vStr "media")
  else paramsWithKey P

/-- The caller-supplied headers after the body/media branch: the multipart
branch writes the `multipart/related` Content-Type (line 206), the
simple-media branch writes the media Content-Type (line 232). -/
def headersAfterMediaBranch (env : Env) (P : APIRequestParams) : JsObj :=
  if isMediaCase env P then
    if truthy (resourceBody P)
    then objSet (userHeaders P) "Content-Type"
      (.vStr ("multipart/related; boundary=" ++ env.uuid))
    else objSet (userHeaders P) "Content-Type"
      (jsOr (vGetField (media P) "mimeType") (.vStr (defaultMime P)))
  else userHeaders P

/-- The outgoing body for the three branches (lines 229, 233, 236). -/
def dataOut (env : Env) (P : APIRequestParams) : DataOut :=
  if isMediaCase env P then
    if truthy (resourceBody P)
    then .multipartStream (multipartChunks (resourceBody P) (media P) (defaultMime P) env.uuid)
    else .val (mediaBody P)
  else .val (jsOr (resourceBody P) .vUndefined)

/-- The final request URL: the expanded media URL in the media case
(line 182), else the expanded `options.url`. -/
def urlFinal (env : Env) (P : APIRequestParams) : Option String :=
  if isMediaCase env P then expandedMediaUrl env P else expandedUrl env P

/-- The directives list after line 244's push of the
`google-api-nodejs-client` product entry. -/
def uaPushed (env : Env) (P : APIRequestParams) : List UADirective :=
  (P.options.userAgentDirectives.getD []) ++
    [{ product := "google-api-nodejs-client", version := env.pkgVersion, comment := some "gzip" }]

/-- One `product/version (comment)` line of the User-Agent string
(lines 250-256). -/
def uaLine (d : UADirective) : String :=
  d.product ++ "/" ++ d.version ++
    (match d.comment with
     | some c => " (" ++ c ++ ")"
     | none => "")

/-- Lines 249-257: the assembled User-Agent string. -/
def userAgentString (env : Env) (P : APIRequestParams) : String :=
  String.intercalate " " ((uaPushed env P).map uaLine)

/-- Lines 239-259: `options.headers = extend(true, options.headers || \x7b\x7d,
headers)`, then on non-browser targets the generated `Accept-Encoding: gzip`
and `User-Agent` headers are written on top. -/
def headersAssembled (env : Env) (P : APIRequestParams) : JsObj :=
  let h := extendDeep (P.options.headers.getD []) (headersAfterMediaBranch env P)
  if env.isBrowser then h
  else objSet (objSet h "Accept-Encoding" (.vStr "gzip"))
    "User-Agent" (.vStr (userAgentString env P))

/-- The default status validator installed at lines 264-268: any 2xx or
exactly 304. -/
def defaultValidateStatus (status : Int) : Bool :=
  (200 ≤ status && status < 300) || status == 304

/-- The per-call options object right before the final merge (the working
copy of `parameters.options` after lines 146-271). -/
def optionsFinal (env : Env) (P : APIRequestParams) : GOpts :=
  { url := urlFinal env P
    params := some (resolvedParamsFinal env P)
    auth := P.options.auth
    headers := some (headersAssembled env P)
    data := dataOut env P
    validateStatus := some (P.options.validateStatus.getD defaultValidateStatus)
    retry := some (P.options.retry.getD true)
    userAgentDirectives :=
      if env.isBrowser then P.options.userAgentDirectives
      else
        match P.options.userAgentDirectives with
        | some _ => some (uaPushed env P)
        | none => none }

/-- `extend(true, target, source)` on the option bags: scalar fields are
overwritten when the source field is defined, object-valued fields
(`params`, `headers`, object `data`) are merged deeply. -/
def extendGOpts (t s : GOpts) : GOpts :=
  { url :=
      match s.url with
      | some u => some u
      | none => t.url
    params :=
      match s.params with
      | some ps => some (extendDeep (t.params.getD []) ps)
      | none => t.params
    auth :=
      match s.auth with
      | .vUndefined => t.auth
      | a => a
    headers :=
      match s.headers with
      | some hs => some (extendDeep (t.headers.getD []) hs)
      | none => t.headers
    data :=
      match t.data, s.data with
      | .val (.vObj tf), .val (.vObj sf) => .val (.vObj (extendDeep tf sf))
      | td, .val .vUndefined => td
      | _, sd => sd
    validateStatus :=
      match s.validateStatus with
      | some f => some f
      | none => t.validateStatus
    retry :=
      match s.retry with
      | some b => some b
      | none => t.retry
    userAgentDirectives :=
      match s.userAgentDirectives with
      | some ds => some ds
      | none => t.userAgentDirectives }

/-- The per-client options at the final merge: the path-stripping loop has
already removed path parameters from the shared default-params store. -/
def ctxOptionsAfterStrip (P : APIRequestParams) : GOpts :=
  { P.context._options with params := ctxParamsStripped P }

/-- Lines 276-283: `extend(true, \x7b\x7d, google options, context options,
options)`, then `delete mergedOptions.auth`. -/
def mergedOptionsOf (env : Env) (P : APIRequestParams) : GOpts :=
  let m :=
    extendGOpts
      (extendGOpts
        (extendGOpts {}
          (match P.context.google with
           | some g => g._options
           | none => {}))
        (ctxOptionsAfterStrip P))
      (optionsFinal env P)
  { m with auth := .vUndefined }

/-- Lines 289-293: dispatch through the credential capability when the
remaining credential is a truthy object, else through the default
transporter. -/
def executorOf (P : APIRequestParams) : Executor :=
  match authClient1 P with
  | .vObj _ => .oauthClient
  | .vStream _ => .oauthClient
  | _ => .defaultTransporter

/-- The successful outcome of the pipeline. -/
def buildResolved (env : Env) (P : APIRequestParams) : ResolvedRequest :=
  { params := resolvedParamsFinal env P
    mergedOptions := mergedOptionsOf env P
    executor := executorOf P }

/-- The caller-visible descriptor after the pipeline.  Four pieces of the
caller's state are mutated in place: `parameters.mediaUrl` is overwritten
with its expansion (line 150); the per-client default-params store has its
path parameters removed (line 171); the caller's `options.headers` object —
shared with the line-72 shallow copy — is mutated by the `extend` merge of
line 239 and the `Accept-Encoding`/`User-Agent` writes of lines 242/258, so
when the caller supplied a headers object its content afterwards is the
fully assembled header map; and the caller's `options.userAgentDirectives`
array receives the pushed client directive (line 244) on non-browser
targets.  (Writes that reach the caller only through object values stored
inside the parameter maps — the media branches write the generated
`Content-Type` into the extracted headers object at lines 206/232 — are
below the own-property granularity of this descriptor record.) -/
def finalParameters (env : Env) (P : APIRequestParams) : APIRequestParams :=
  { P with
    mediaUrl := expandedMediaUrl env P
    options :=
      { P.options with
        headers :=
          match P.options.headers with
          | some _ => some (headersAssembled env P)
          | none => none
        userAgentDirectives :=
          if env.isBrowser then P.options.userAgentDirectives
          else
            match P.options.userAgentDirectives with
            | some _ => some (uaPushed env P)
            | none => none }
    context :=
      { P.context with
        _options := { P.context._options with params := ctxParamsStripped P } } }

/-- Source `createAPIRequestAsync` (lines 70-294): the whole pipeline.  The
result pairs the outcome (the validation error, or the resolved request as
handed to dispatch) with the final state of the caller's descriptor. -/
def createAPIRequestAsync (env : Env) (P : APIRequestParams) :
    Except ApiError ResolvedRequest × APIRequestParams :=
  match missingOf P with
  | some missing => (.error (.missingParams missing), P)
  | none => (.ok (buildResolved env P), finalParameters env P)

/-- One invocation of the `BodyResponseCallback`: the error argument and the
response argument. -/
structure CallbackCall where
  err : Option ApiError
  res : Option ResolvedRequest

/-- The observable outcome of `createAPIRequest`: the returned promise when
no callback is supplied, or (for the callback convention) the recorded
callback invocations of the void-returning overload. -/
inductive CallResult where
  | promise : Except ApiError ResolvedRequest → CallResult
  | voidReturn : List CallbackCall → CallResult

/-- Line 64: `.then(r => callback(null, r), callback)` — the single
invocation the callback receives for a settled outcome. -/
def callbackCalls (r : Except ApiError ResolvedRequest) : List CallbackCall :=
  match r with
  | .ok v => [{ err := none, res := some v }]
  | .error e => [{ err := some e, res := none }]

/-- Source `createAPIRequest` (lines 59-68): with a callback, run the async
pipeline and forward its settlement to the callback, returning void; without
one, return the promise itself. -/
def createAPIRequest (env : Env) (P : APIRequestParams) (hasCallback : Bool) : CallResult :=
  if hasCallback
  then .voidReturn (callbackCalls (createAPIRequestAsync env P).1)
  else .promise (createAPIRequestAsync env P).1

/-! Basic lemmas about the JavaScript-object operations. -/

theorem objGet_objSet_self (m : JsObj) (k : String) (v : Value) :
    objGet (objSet m k v) k = v := by
  induction m with
  | nil => simp [objSet, objGet]
  | cons kv rest ih =>
      obtain ⟨k', v'⟩ := kv
      by_cases h : k' = k
      · simp [objSet, objGet, h]
      · simp [objSet, objGet, h, ih]

theorem objGet_objSet_ne (m : JsObj) (k q : String) (v : Value) (h : k ≠ q) :
    objGet (objSet m k v) q = objGet m q := by
  induction m with
  | nil => simp [objSet, objGet, h]
  | cons kv rest ih =>
      obtain ⟨k', v'⟩ := kv
      by_cases h' : k' = k
      · subst h'
        simp [objSet, objGet, h]
      · by_cases h'' : k' = q <;> simp [objSet, objGet, h', h'', ih, h, Ne.symm h]

theorem objGet_objDelete_self (m : JsObj) (k : String) :
    objGet (objDelete m k) k = .vUndefined := by
  induction m with
  | nil => simp [objDelete, objGet]
  | cons kv rest ih =>
      obtain ⟨k', v'⟩ := kv
      by_cases h : k' = k <;> simp [objDelete, objGet, h, ih]

theorem objGet_objDelete_ne (m : JsObj) (k q : String) (h : k ≠ q) :
    objGet (objDelete m k) q = objGet m q := by
  induction m with
  | nil => simp [objDelete]
  | cons kv rest ih =>
      obtain ⟨k', v'⟩ := kv
      by_cases h' : k' = k
      · subst h'
        simp [objDelete, objGet, h, ih]
      · by_cases h'' : k' = q <;> simp [objDelete, objGet, h', h'', ih, h, Ne.symm h]

theorem objHas_objDelete_self (m : JsObj) (k : String) :
    objHas (objDelete m k) k = false := by
  induction m with
  | nil => simp [objDelete, objHas]
  | cons kv rest ih =>
      obtain ⟨k', v'⟩ := kv
      by_cases h : k' = k <;> simp [objDelete, objHas, h, ih]

theorem objHas_objDelete_ne (m : JsObj) (k q : String) (h : k ≠ q) :
    objHas (objDelete m k) q = objHas m q := by
  induction m with
  | nil => simp [objDelete]
  | cons kv rest ih =>
      obtain ⟨k', v'⟩ := kv
      by_cases h' : k' = k
      · subst h'
        simp [objDelete, objHas, h, ih]
      · by_cases h'' : k' = q <;> simp [objDelete, objHas, h', h'', ih, h, Ne.symm h]

theorem objHas_objSet_self (m : JsObj) (k : String) (v : Value) :
    objHas (objSet m k v) k = true := by
  induction m with
  | nil => simp [objSet, objHas]
  | cons kv rest ih =>
      obtain ⟨k', v'⟩ := kv
      by_cases h : k' = k <;> simp [objSet, objHas, h, ih]

theorem objHas_objSet_ne (m : JsObj) (k q : String) (v : Value) (h : k ≠ q) :
    objHas (objSet m k v) q = objHas m q := by
  induction m with
  | nil => simp [objSet, objHas, h]
  | cons kv rest ih =>
      obtain ⟨k', v'⟩ := kv
      by_cases h' : k' = k
      · subst h'
        simp [objSet, objHas, h]
      · by_cases h'' : k' = q <;> simp [objSet, objHas, h', h'', ih, h, Ne.symm h]

theorem objKeys_nil : objKeys [] = [] := rfl

theorem objKeys_cons (k : String) (v : Value) (rest : JsObj) :
    objKeys ((k, v) :: rest) = k :: objKeys rest := rfl

theorem mem_objKeys_iff_objHas (m : JsObj) (k : String) :
    k ∈ objKeys m ↔ objHas m k = true := by
  induction m with
  | nil => simp [objKeys_nil, objHas]
  | cons kv rest ih =>
      obtain ⟨k', v'⟩ := kv
      by_cases h : k' = k
      · simp [objKeys_cons, objHas, h]
      · simp [objKeys_cons, objHas, h, Ne.symm h, ih]

theorem mem_objKeys_objSet (m : JsObj) (k q : String) (v : Value)
    (h : q ∈ objKeys (objSet m k v)) : q ∈ objKeys m ∨ q = k := by
  induction m with
  | nil =>
      simp [objSet, objKeys_cons, objKeys_nil] at h
      exact Or.inr h
  | cons kv rest ih =>
      obtain ⟨k', v'⟩ := kv
      by_cases h' : k' = k
      · rw [objSet, if_pos h'] at h
        rw [objKeys_cons] at h ⊢
        exact Or.inl h
      · rw [objSet, if_neg h'] at h
        rw [objKeys_cons] at h
        rw [objKeys_cons]
        rcases List.mem_cons.mp h with h | h
        · exact Or.inl (List.mem_cons.mpr (Or.inl h))
        · rcases ih h with hh | hh
          · exact Or.inl (List.mem_cons.mpr (Or.inr hh))
          · exact Or.inr hh

theorem nodup_objKeys_objSet (m : JsObj) (k : String) (v : Value)
    (h : (objKeys m).Nodup) : (objKeys (objSet m k v)).Nodup := by
  induction m with
  | nil => simp [objSet, objKeys_cons, objKeys_nil]
  | cons kv rest ih =>
      obtain ⟨k', v'⟩ := kv
      rw [objKeys_cons, List.nodup_cons] at h
      by_cases h' : k' = k
      · rw [objSet, if_pos h', objKeys_cons, List.nodup_cons]
        exact h
      · rw [objSet, if_neg h', objKeys_cons, List.nodup_cons]
        refine ⟨?_, ih h.2⟩
        intro hmem
        rcases mem_objKeys_objSet rest k k' v hmem with hh | hh
        · exact h.1 hh
        · exact h' hh

theorem mem_objKeys_objDelete (m : JsObj) (k q : String)
    (h : q ∈ objKeys (objDelete m k)) : q ∈ objKeys m ∧ q ≠ k := by
  induction m with
  | nil => simp [objDelete, objKeys_nil] at h
  | cons kv rest ih =>
      obtain ⟨k', v'⟩ := kv
      by_cases h' : k' = k
      · rw [objDelete, if_pos h'] at h
        obtain ⟨h1, h2⟩ := ih h
        exact ⟨List.mem_cons.mpr (Or.inr h1), h2⟩
      · rw [objDelete, if_neg h', objKeys_cons] at h
        rcases List.mem_cons.mp h with h | h
        · subst h
          exact ⟨List.mem_cons.mpr (Or.inl rfl), fun hh => h' hh⟩
        · obtain ⟨h1, h2⟩ := ih h
          exact ⟨List.mem_cons.mpr (Or.inr h1), h2⟩

theorem objAssign_cons (t : JsObj) (k : String) (v : Value) (rest : JsObj) :
    objAssign t ((k, v) :: rest) = objAssign (objSet t k v) rest := rfl

theorem objGet_objAssign (t s : JsObj) (q : String) (hs : (objKeys s).Nodup) :
    objGet (objAssign t s) q = if objHas s q then objGet s q else objGet t q := by
  induction s generalizing t with
  | nil => simp [objAssign, objHas]
  | cons kv rest ih =>
      obtain ⟨k, v⟩ := kv
      rw [objKeys_cons, List.nodup_cons] at hs
      rw [objAssign_cons, ih _ hs.2]
      by_cases hkq : k = q
      · subst hkq
        have : objHas rest k = false := by
          by_contra hcon
          simp at hcon
          exact hs.1 ((mem_objKeys_iff_objHas rest k).mpr hcon)
        simp [this, objHas, objGet, objGet_objSet_self]
      · by_cases hh : objHas rest q = true
        · simp [hh, objHas, objGet, hkq]
        · simp at hh
          simp [hh, objHas, objGet, hkq, objGet_objSet_ne t k q v hkq]

/-! Lemmas about the path-parameter stripping fold. -/

theorem objGet_foldl_objDelete_not_mem (ps : List String) (m : JsObj) (q : String)
    (h : q ∉ ps) : objGet (ps.foldl objDelete m) q = objGet m q := by
  induction ps generalizing m with
  | nil => rfl
  | cons p rest ih =>
      rw [List.foldl_cons]
      have hq : q ∉ rest := fun hh => h (List.mem_cons.mpr (Or.inr hh))
      have hpq : p ≠ q := fun hh => h (List.mem_cons.mpr (Or.inl hh.symm))
      rw [ih _ hq, objGet_objDelete_ne _ _ _ hpq]

theorem mem_objKeys_foldl_objDelete (ps : List String) (m : JsObj) (q : String)
    (h : q ∈ objKeys (ps.foldl objDelete m)) : q ∈ objKeys m ∧ q ∉ ps := by
  induction ps generalizing m with
  | nil => exact ⟨h, by simp⟩
  | cons p rest ih =>
      rw [List.foldl_cons] at h
      obtain ⟨h1, h2⟩ := ih _ h
      obtain ⟨h3, h4⟩ := mem_objKeys_objDelete m p q h1
      exact ⟨h3, fun hh => (List.mem_cons.mp hh).elim (fun e => h4 e) h2⟩

/-! Lemmas about the deep merge `extendDeep`. -/

theorem objGet_extendEntry_ne (t : JsObj) (k q : String) (v : Value) (h : k ≠ q) :
    objGet (extendDeep.extendEntry t k v) q = objGet t q := by
  cases v <;> simp [extendDeep.extendEntry, objGet_objSet_ne _ _ _ _ h]

theorem nodup_objKeys_extendEntry (t : JsObj) (k : String) (v : Value)
    (h : (objKeys t).Nodup) : (objKeys (extendDeep.extendEntry t k v)).Nodup := by
  cases v <;> simp [extendDeep.extendEntry, nodup_objKeys_objSet _ _ _ h, h]

theorem extendDeep_nil (t : JsObj) : extendDeep t [] = t := rfl

theorem extendDeep_cons (t : JsObj) (k : String) (v : Value) (rest : JsObj) :
    extendDeep t ((k, v) :: rest) = extendDeep (extendDeep.extendEntry t k v) rest := by
  cases v <;> rfl

theorem objGet_extendDeep_not_has (t s : JsObj) (q : String) (h : objHas s q = false) :
    objGet (extendDeep t s) q = objGet t q := by
  induction s generalizing t with
  | nil => rfl
  | cons kv rest ih =>
      obtain ⟨k, v⟩ := kv
      rw [objHas] at h
      by_cases hkq : k = q
      · simp [hkq] at h
      · rw [if_neg hkq] at h
        rw [extendDeep_cons, ih _ h, objGet_extendEntry_ne _ _ _ _ hkq]

theorem objGet_extendDeep_vStr (t s : JsObj) (q x : String)
    (hnd : (objKeys s).Nodup) (h : objGet s q = .vStr x) :
    objGet (extendDeep t s) q = .vStr x := by
  induction s generalizing t with
  | nil => simp [objGet] at h
  | cons kv rest ih =>
      obtain ⟨k, v⟩ := kv
      rw [objKeys_cons, List.nodup_cons] at hnd
      rw [objGet] at h
      by_cases hkq : k = q
      · subst hkq
        rw [if_pos rfl] at h
        subst h
        have hrest : objHas rest k = false := by
          by_contra hcon
          simp at hcon
          exact hnd.1 ((mem_objKeys_iff_objHas rest k).mpr hcon)
        rw [extendDeep_cons, objGet_extendDeep_not_has _ _ _ hrest]
        simp [extendDeep.extendEntry, objGet_objSet_self]
      · rw [if_neg hkq] at h
        rw [extendDeep_cons]
        exact ih _ hnd.2 h

theorem nodup_objKeys_extendDeep (t s : JsObj) (h : (objKeys t).Nodup) :
    (objKeys (extendDeep t s)).Nodup := by
  induction s generalizing t with
  | nil => exact h
  | cons kv rest ih =>
      obtain ⟨k, v⟩ := kv
      rw [extendDeep_cons]
      exact ih _ (nodup_objKeys_extendEntry _ _ _ h)

/-! Lemmas about the un-aliasing loop. -/

theorem unaliasStep_not_marked (acc : JsObj) (key : String)
    (h : lastCharIsUnderscore key = false) : unaliasStep acc key = acc := by
  simp [unaliasStep, h]

theorem foldl_unaliasStep_no_marked (ks : List String) (acc : JsObj)
    (h : ∀ k ∈ ks, lastCharIsUnderscore k = false) :
    ks.foldl unaliasStep acc = acc := by
  induction ks generalizing acc with
  | nil => rfl
  | cons k0 rest ih =>
      rw [List.foldl_cons,
        unaliasStep_not_marked _ _ (h k0 (List.mem_cons.mpr (Or.inl rfl)))]
      exact ih _ (fun k hk => h k (List.mem_cons.mpr (Or.inr hk)))

theorem no_marked_keys_foldl_unaliasStep (ks : List String) (acc : JsObj)
    (hinv : ∀ k, k ∈ objKeys acc → lastCharIsUnderscore k = true → k ∈ ks)
    (hstrip : ∀ k ∈ ks, lastCharIsUnderscore k = true →
      lastCharIsUnderscore (stripLast k) = false) :
    ∀ k ∈ objKeys (ks.foldl unaliasStep acc), lastCharIsUnderscore k = false := by
  induction ks generalizing acc with
  | nil =>
      intro k hk
      by_contra hcon
      simp at hcon
      exact (List.not_mem_nil k) (hinv k hk hcon)
  | cons k0 rest ih =>
      intro k hk
      rw [List.foldl_cons] at hk
      refine ih (unaliasStep acc k0) ?_
        (fun k hk hm => hstrip k (List.mem_cons.mpr (Or.inr hk)) hm) k hk
      intro k' hk' hm'
      by_cases h0 : lastCharIsUnderscore k0 = true
      · rw [unaliasStep, if_pos h0] at hk'
        obtain ⟨hk'', hne⟩ := mem_objKeys_objDelete _ _ _ hk'
        rcases mem_objKeys_objSet _ _ _ _ hk'' with hh | hh
        · have := hinv k' hh hm'
          rcases List.mem_cons.mp this with e | e
          · exact absurd e hne
          · exact e
        · subst hh
          rw [hstrip k0 (List.mem_cons.mpr (Or.inl rfl)) h0] at hm'
          exact absurd hm' (by simp)
      · simp at h0
        rw [unaliasStep_not_marked _ _ h0] at hk'
        have := hinv k' hk' hm'
        rcases List.mem_cons.mp this with e | e
        · subst e
          rw [h0] at hm'
          exact absurd hm' (by simp)
        · exact e

theorem unalias_no_marked (m : JsObj)
    (hstrip : ∀ k ∈ objKeys m, lastCharIsUnderscore k = true →
      lastCharIsUnderscore (stripLast k) = false) :
    ∀ k ∈ objKeys (unalias m), lastCharIsUnderscore k = false := by
  exact no_marked_keys_foldl_unaliasStep (objKeys m) m (fun k hk _ => hk) hstrip

theorem foldl_unaliasStep_single (K : String) (hK : lastCharIsUnderscore K = true)
    (ks : List String) (m : JsObj) (hnd : ks.Nodup)
    (honly : ∀ k ∈ ks, lastCharIsUnderscore k = true → k = K) (hmem : K ∈ ks) :
    ks.foldl unaliasStep m = objDelete (objSet m (stripLast K) (objGet m K)) K := by
  induction ks generalizing m with
  | nil => exact absurd hmem (List.not_mem_nil K)
  | cons k0 rest ih =>
      rw [List.nodup_cons] at hnd
      by_cases h0 : k0 = K
      · subst h0
        rw [List.foldl_cons, unaliasStep, if_pos hK]
        refine foldl_unaliasStep_no_marked rest _ ?_
        intro k hk
        by_contra hcon
        simp at hcon
        exact hnd.1 ((honly k (List.mem_cons.mpr (Or.inr hk)) hcon) ▸ hk)
      · have hk0 : lastCharIsUnderscore k0 = false := by
          by_contra hcon
          simp at hcon
          exact h0 (honly k0 (List.mem_cons.mpr (Or.inl rfl)) hcon)
        rw [List.foldl_cons, unaliasStep_not_marked _ _ hk0]
        refine ih _ hnd.2 (fun k hk hm => honly k (List.mem_cons.mpr (Or.inr hk)) hm) ?_
        rcases List.mem_cons.mp hmem with e | e
        · exact absurd e.symm h0
        · exact e

theorem unalias_single (m : JsObj) (K : String) (hK : lastCharIsUnderscore K = true)
    (hnd : (objKeys m).Nodup)
    (honly : ∀ k ∈ objKeys m, lastCharIsUnderscore k = true → k = K)
    (hmem : objHas m K = true) :
    unalias m = objDelete (objSet m (stripLast K) (objGet m K)) K := by
  exact foldl_unaliasStep_single K hK (objKeys m) m hnd honly
    ((mem_objKeys_iff_objHas m K).mpr hmem)

theorem ne_of_marked_unmarked (a b : String) (ha : lastCharIsUnderscore a = true)
    (hb : lastCharIsUnderscore b = false) : a ≠ b := by
  intro he
  subst he
  rw [ha] at hb
  exact Bool.noConfusion hb

theorem getLast_eq_underscore_of_marked (k : String) (h : lastCharIsUnderscore k = true) :
    k.data.getLast? = some '_' := by
  unfold lastCharIsUnderscore at h
  cases hg : k.data.getLast? with
  | none =>
      rw [hg] at h
      exact Bool.noConfusion h
  | some c =>
      rw [hg] at h
      simp at h
      rw [h]

theorem marked_stripLast_inj (k1 k2 : String)
    (h1 : lastCharIsUnderscore k1 = true) (h2 : lastCharIsUnderscore k2 = true)
    (he : stripLast k1 = stripLast k2) : k1 = k2 := by
  have e1 := getLast_eq_underscore_of_marked k1 h1
  have e2 := getLast_eq_underscore_of_marked k2 h2
  have ne1 : k1.data ≠ [] := by
    intro hh
    rw [hh] at e1
    simp at e1
  have ne2 : k2.data ≠ [] := by
    intro hh
    rw [hh] at e2
    simp at e2
  have hd : k1.data.dropLast = k2.data.dropLast := by
    have := congrArg String.data he
    simpa [stripLast] using this
  have g1 : k1.data = k1.data.dropLast ++ ['_'] := by
    have hlast : k1.data.getLast ne1 = '_' := by
      have h' := List.getLast?_eq_getLast_of_ne_nil ne1
      exact Option.some.inj (h'.symm.trans e1)
    conv_lhs => rw [← List.dropLast_append_getLast ne1]
    rw [hlast]
  have g2 : k2.data = k2.data.dropLast ++ ['_'] := by
    have hlast : k2.data.getLast ne2 = '_' := by
      have h' := List.getLast?_eq_getLast_of_ne_nil ne2
      exact Option.some.inj (h'.symm.trans e2)
    conv_lhs => rw [← List.dropLast_append_getLast ne2]
    rw [hlast]
  apply String.ext
  rw [g1, g2, hd]

theorem objHas_foldl_unaliasStep_false :
    ∀ (ks : List String) (acc : JsObj) (q : String),
      objHas acc q = false →
      (∀ K ∈ ks, lastCharIsUnderscore K = true → stripLast K ≠ q) →
      objHas (ks.foldl unaliasStep acc) q = false := by
  intro ks
  induction ks with
  | nil =>
      intro acc q h _
      exact h
  | cons k0 rest ih =>
      intro acc q h hts
      rw [List.foldl_cons]
      refine ih _ _ ?_ (fun K hK hmK => hts K (List.mem_cons.mpr (Or.inr hK)) hmK)
      by_cases hm0 : lastCharIsUnderscore k0 = true
      · rw [unaliasStep, if_pos hm0]
        by_cases hqk : k0 = q
        · rw [hqk, objHas_objDelete_self]
        · rw [objHas_objDelete_ne _ _ _ hqk,
            objHas_objSet_ne _ _ _ _ (hts k0 (List.mem_cons.mpr (Or.inl rfl)) hm0)]
          exact h
      · simp only [Bool.not_eq_true] at hm0
        rw [unaliasStep_not_marked _ _ hm0]
        exact h

theorem unalias_fold_spec :
    ∀ (ks : List String), ks.Nodup →
      (∀ k ∈ ks, lastCharIsUnderscore k = true →
        lastCharIsUnderscore (stripLast k) = false) →
      (∀ k1 ∈ ks, ∀ k2 ∈ ks, lastCharIsUnderscore k1 = true →
        lastCharIsUnderscore k2 = true → k1 ≠ k2 → stripLast k1 ≠ stripLast k2) →
      ∀ acc : JsObj,
        (∀ K ∈ ks, lastCharIsUnderscore K = true →
          objGet (ks.foldl unaliasStep acc) (stripLast K) = objGet acc K) ∧
        (∀ K ∈ ks, lastCharIsUnderscore K = true →
          objHas (ks.foldl unaliasStep acc) K = false) ∧
        (∀ q, lastCharIsUnderscore q = false →
          (∀ K ∈ ks, lastCharIsUnderscore K = true → stripLast K ≠ q) →
          objGet (ks.foldl unaliasStep acc) q = objGet acc q) := by
  intro ks
  induction ks with
  | nil =>
      intro _ _ _ acc
      exact ⟨by simp, by simp, fun q _ _ => rfl⟩
  | cons k0 rest ih =>
      intro hnd h1 h2 acc
      rw [List.nodup_cons] at hnd
      have hmem0 : k0 ∈ k0 :: rest := List.mem_cons.mpr (Or.inl rfl)
      have h1' : ∀ k ∈ rest, lastCharIsUnderscore k = true →
          lastCharIsUnderscore (stripLast k) = false :=
        fun k hk => h1 k (List.mem_cons.mpr (Or.inr hk))
      have h2' : ∀ k1 ∈ rest, ∀ k2 ∈ rest, lastCharIsUnderscore k1 = true →
          lastCharIsUnderscore k2 = true → k1 ≠ k2 → stripLast k1 ≠ stripLast k2 :=
        fun k1 hk1 k2 hk2 =>
          h2 k1 (List.mem_cons.mpr (Or.inr hk1)) k2 (List.mem_cons.mpr (Or.inr hk2))
      have spec := ih hnd.2 h1' h2'
      rw [List.foldl_cons]
      by_cases hm0 : lastCharIsUnderscore k0 = true
      · have hstep : unaliasStep acc k0 =
            objDelete (objSet acc (stripLast k0) (objGet acc k0)) k0 := by
          rw [unaliasStep, if_pos hm0]
        rw [hstep]
        have hbase0 : lastCharIsUnderscore (stripLast k0) = false := h1 k0 hmem0 hm0
        obtain ⟨s1, s2, s3⟩ := spec (objDelete (objSet acc (stripLast k0) (objGet acc k0)) k0)
        refine ⟨?_, ?_, ?_⟩
        · intro K hK hmK
          rcases List.mem_cons.mp hK with rfl | hKr
          · have hts : ∀ K' ∈ rest, lastCharIsUnderscore K' = true →
                stripLast K' ≠ stripLast K := by
              intro K' hK' hmK'
              have hne : K' ≠ K := fun he => hnd.1 (he ▸ hK')
              exact h2 K' (List.mem_cons.mpr (Or.inr hK')) K hmem0 hmK' hmK hne
            rw [s3 (stripLast K) (h1 K hmem0 hmK) hts]
            have hne2 : K ≠ stripLast K :=
              ne_of_marked_unmarked _ _ hmK (h1 K hmem0 hmK)
            rw [objGet_objDelete_ne _ _ _ hne2, objGet_objSet_self]
          · have hKk0 : k0 ≠ K := fun he => hnd.1 (he ▸ hKr)
            have hsk0K : stripLast k0 ≠ K :=
              (ne_of_marked_unmarked K (stripLast k0) hmK hbase0).symm
            rw [s1 K hKr hmK, objGet_objDelete_ne _ _ _ hKk0,
              objGet_objSet_ne _ _ _ _ hsk0K]
        · intro K hK hmK
          rcases List.mem_cons.mp hK with rfl | hKr
          · refine objHas_foldl_unaliasStep_false rest _ K (objHas_objDelete_self _ _) ?_
            intro K' hK' hmK'
            exact (ne_of_marked_unmarked K (stripLast K') hmK (h1' K' hK' hmK')).symm
          · exact s2 K hKr hmK
        · intro q hq hts
          rw [s3 q hq (fun K hK hmK => hts K (List.mem_cons.mpr (Or.inr hK)) hmK)]
          have hqk0 : k0 ≠ q := ne_of_marked_unmarked _ _ hm0 hq
          have hsq : stripLast k0 ≠ q := hts k0 hmem0 hm0
          rw [objGet_objDelete_ne _ _ _ hqk0, objGet_objSet_ne _ _ _ _ hsq]
      · simp only [Bool.not_eq_true] at hm0
        rw [unaliasStep_not_marked acc k0 hm0]
        obtain ⟨s1, s2, s3⟩ := spec acc
        refine ⟨?_, ?_, ?_⟩
        · intro K hK hmK
          rcases List.mem_cons.mp hK with rfl | hKr
          · rw [hmK] at hm0
            exact Bool.noConfusion hm0
          · exact s1 K hKr hmK
        · intro K hK hmK
          rcases List.mem_cons.mp hK with rfl | hKr
          · rw [hmK] at hm0
            exact Bool.noConfusion hm0
          · exact s2 K hKr hmK
        · intro q hq hts
          exact s3 q hq (fun K hK hmK => hts K (List.mem_cons.mpr (Or.inr hK)) hmK)

/-! Lemmas about the later pipeline stages. -/

theorem objGet_eq_vUndefined_of_not_has (m : JsObj) (q : String) (h : objHas m q = false) :
    objGet m q = .vUndefined := by
  induction m with
  | nil => rfl
  | cons kv rest ih =>
      obtain ⟨k', v'⟩ := kv
      rw [objHas] at h
      by_cases h' : k' = q
      · rw [if_pos h'] at h
        exact absurd h (by simp)
      · rw [if_neg h'] at h
        rw [objGet, if_neg h']
        exact ih h

theorem isUndefined_eq_false_of_truthy (v : Value) (h : truthy v = true) :
    isUndefined v = false := by
  cases v <;> simp_all [truthy, isUndefined]

theorem createAPIRequestAsync_ok (env : Env) (P : APIRequestParams) (r : ResolvedRequest)
    (h : (createAPIRequestAsync env P).1 = .ok r) :
    missingOf P = none ∧ r = buildResolved env P := by
  unfold createAPIRequestAsync at h
  cases hm : missingOf P with
  | some l =>
      rw [hm] at h
      exact absurd h (by simp)
  | none =>
      rw [hm] at h
      simp at h
      exact ⟨rfl, h.symm⟩

theorem required_not_undef_of_missing_none (P : APIRequestParams) (q : String)
    (hm : missingOf P = none) (hq : q ∈ P.requiredParams) :
    isUndefined (objGet (paramsUnaliased P) q) = false := by
  unfold missingOf getMissingParams at hm
  by_cases hl :
      (P.requiredParams.filter fun p => isUndefined (objGet (paramsUnaliased P) p)).length > 0
  · rw [if_pos hl] at hm
    exact absurd hm (by simp)
  · by_contra hcon
    simp only [Bool.not_eq_false] at hcon
    have hmem : q ∈ P.requiredParams.filter
        (fun p => isUndefined (objGet (paramsUnaliased P) p)) :=
      List.mem_filter.mpr ⟨hq, hcon⟩
    exact hl (List.length_pos.mpr (List.ne_nil_of_mem hmem))

theorem objGet_paramsWithKey_ne (P : APIRequestParams) (q : String) (h : q ≠ "key") :
    objGet (paramsWithKey P) q = objGet (paramsStripped P) q := by
  unfold paramsWithKey
  split
  · rw [objGet_objSet_ne _ _ _ _ (Ne.symm h)]
  · rfl

theorem objGet_resolvedParamsFinal_ne (env : Env) (P : APIRequestParams) (q : String)
    (h : q ≠ "uploadType") :
    objGet (resolvedParamsFinal env P) q = objGet (paramsWithKey P) q := by
  unfold resolvedParamsFinal
  split
  · split
    · rw [objGet_objSet_ne _ _ _ _ (Ne.symm h)]
    · rw [objGet_objSet_ne _ _ _ _ (Ne.symm h)]
  · rfl

theorem mem_objKeys_paramsWithKey (P : APIRequestParams) (k : String)
    (h : k ∈ objKeys (paramsWithKey P)) :
    (k ∈ objKeys (paramsUnaliased P) ∧ k ∉ P.pathParams) ∨ k = "key" := by
  have hstripped : k ∈ objKeys (paramsStripped P) →
      k ∈ objKeys (paramsUnaliased P) ∧ k ∉ P.pathParams := by
    intro hh
    exact mem_objKeys_foldl_objDelete _ _ _ hh
  revert h
  unfold paramsWithKey
  split
  · intro h
    rcases mem_objKeys_objSet _ _ _ _ h with hh | hh
    · exact Or.inl (hstripped hh)
    · exact Or.inr hh
  · intro h
    exact Or.inl (hstripped h)

theorem mem_objKeys_resolvedParamsFinal (env : Env) (P : APIRequestParams) (k : String)
    (h : k ∈ objKeys (resolvedParamsFinal env P)) :
    k ∈ objKeys (paramsWithKey P) ∨ k = "uploadType" := by
  revert h
  unfold resolvedParamsFinal
  split
  · split
    · intro h
      exact mem_objKeys_objSet _ _ _ _ h
    · intro h
      exact mem_objKeys_objSet _ _ _ _ h
  · intro h
    exact Or.inl h

/-! Concrete fixtures used by the witnesses and counterexamples. -/

/-- A concrete environment: non-browser target, identity-like template
expansion, a fixed uuid, and a fixed package version. -/
def env0 : Env :=
  { isBrowser := false, expand := fun t _ => t, uuid := "UUID", pkgVersion := "1.0.0" }

/-- An environment whose template expander returns a different string, to
observe the `parameters.mediaUrl` write-back. -/
def envExpand : Env := { env0 with expand := fun _ _ => "EXPANDED" }

/-- Global default params for the precedence witness. -/
def gW : JsObj := [("a", .vStr "glob"), ("b", .vStr "glob"), ("c", .vStr "glob")]

/-- Per-client default params for the precedence witness. -/
def cW : JsObj := [("a", .vStr "client"), ("b", .vStr "client")]

/-- Per-call params for the precedence witness. -/
def pW : JsObj := [("a", .vStr "call")]

/-- A descriptor carrying both `requestBody` and `resource`. -/
def descBodyBoth : APIRequestParams :=
  { params := [("requestBody", .vStr "b"), ("resource", .vStr "r")] }

/-- A descriptor with one required parameter and an empty parameter map. -/
def descMissingId : APIRequestParams := { params := [], requiredParams := ["id"] }

/-- A descriptor whose caller-supplied headers carry an `Accept-Encoding`
override. -/
def descHeaderAE : APIRequestParams :=
  { params := [("headers", .vObj [("Accept-Encoding", .vStr "identity")])] }

/-- A descriptor whose caller-supplied headers carry a custom header. -/
def descHeaderCustom : APIRequestParams :=
  { params := [("headers", .vObj [("X-Custom", .vStr "7")])] }

/-- A descriptor with a parameter key ending in two alias markers. -/
def descDoubleMark : APIRequestParams := { params := [("x__", .vStr "v")] }

/-- A well-behaved descriptor exercising aliasing, a required parameter and
a path parameter. -/
def descAliasReq : APIRequestParams :=
  { params := [("resource_", .vStr "v"), ("id", .vStr "1")],
    requiredParams := ["id"], pathParams := ["pp"] }

/-- A map with a single-marker alias next to an unrelated key. -/
def aliasMapW : JsObj := [("a_", .vStr "x"), ("b", .vStr "y")]

/-- A map with chained alias markers: `a__` strips to the marked key `a_`. -/
def aliasChainW : JsObj := [("a__", .vStr "1"), ("a_", .vStr "2")]

/-- A descriptor whose per-call options carry a headers object, to observe
its in-place mutation. -/
def descOptsHeaders : APIRequestParams :=
  { params := [], options := { headers := some [("X-Base", .vStr "1")] } }

/-- A descriptor whose per-call options carry a `userAgentDirectives` array,
to observe its in-place mutation. -/
def descOptsUA : APIRequestParams :=
  { params := [], options := { userAgentDirectives := some [] } }

/-- A descriptor carrying a present-but-empty `key` parameter together with
a string credential. -/
def descKeyAuth : APIRequestParams :=
  { params := [("key", .vStr ""), ("auth", .vStr "AK")] }

/-- A descriptor with a media URL template, to observe its write-back. -/
def descMediaUrl : APIRequestParams := { params := [], mediaUrl := some "http://u" }

/-- A minimal descriptor on which resolution succeeds. -/
def descPlain : APIRequestParams := { params := [] }

/-! Claim theorems. -/

/-- C1: merging the three parameter sources (global defaults, per-client
context defaults, per-call params) is a shallow overwrite merge with
precedence per-call > per-client > global: each key resolves to the per-call
value when the key is present there, else the per-client value, else the
global value (the winning value is taken whole, never merged deeply). -/
theorem claim_C1 (g c p : JsObj) (q : String)
    (hg : (objKeys g).Nodup) (hc : (objKeys c).Nodup) (hp : (objKeys p).Nodup) :
    objGet (mergedParams
      { params := p,
        context := { _options := { params := some c },
                     google := some { _options := { params := some g } } } }) q =
      if objHas p q then objGet p q
      else if objHas c q then objGet c q
      else objGet g q := by
  show objGet (objAssign (objAssign (objAssign [] g) c) p) q = _
  rw [objGet_objAssign _ _ _ hp, objGet_objAssign _ _ _ hc, objGet_objAssign _ _ _ hg]
  by_cases h1 : objHas p q = true
  · simp [h1]
  · simp only [Bool.not_eq_true] at h1
    by_cases h2 : objHas c q = true
    · simp [h1, h2]
    · simp only [Bool.not_eq_true] at h2
      by_cases h3 : objHas g q = true
      · simp [h1, h2, h3]
      · simp only [Bool.not_eq_true] at h3
        simp [h1, h2, h3, objGet_eq_vUndefined_of_not_has g q h3, objGet]

/-- C1 witness: the precedence equation at overlapping concrete sources. -/
theorem claim_C1_witness :
    (objKeys gW).Nodup ∧ (objKeys cW).Nodup ∧ (objKeys pW).Nodup ∧
    objGet (mergedParams
      { params := pW,
        context := { _options := { params := some cW },
                     google := some { _options := { params := some gW } } } }) "a" =
      if objHas pW "a" then objGet pW "a"
      else if objHas cW "a" then objGet cW "a"
      else objGet gW "a" :=
  ⟨by decide, by decide, by decide,
    claim_C1 gW cW pW "a" (by decide) (by decide) (by decide)⟩

/-- C2 counterexample: with both `requestBody` (truthy) and `resource`
present, the resolved body is the `requestBody` value but the `resource` key
is NOT removed from the parameter map — it survives body resolution and even
reaches the final resolved map, contradicting the claim that the output map
contains neither key. -/
theorem claim_C2_counterexample :
    objHas (mergedParams descBodyBoth) "requestBody" = true ∧
    objHas (mergedParams descBodyBoth) "resource" = true ∧
    resourceBody descBodyBoth = .vStr "b" ∧
    objHas (paramsAfterBody descBodyBoth) "requestBody" = false ∧
    objHas (paramsAfterBody descBodyBoth) "resource" = true ∧
    (createAPIRequestAsync env0 descBodyBoth).1 = .ok (buildResolved env0 descBodyBoth) ∧
    objHas (buildResolved env0 descBodyBoth).params "resource" = true :=
  ⟨rfl, rfl, rfl, rfl, rfl, rfl, rfl⟩

/-- C2 (amended): when the merged map contains both keys and the
`requestBody` value is truthy, the resolved body is the `requestBody` value
and the `requestBody` key is removed, but the `resource` key is kept in the
parameter map (the source deletes `resource` only when `requestBody` is
falsy and `resource` truthy: a `resource` accompanying a `requestBody` is
deliberately treated as an ordinary parameter). -/
theorem claim_C2_amended (P : APIRequestParams)
    (hrb : objHas (mergedParams P) "requestBody" = true)
    (hres : objHas (mergedParams P) "resource" = true)
    (ht : truthy (objGet (mergedParams P) "requestBody") = true) :
    resourceBody P = objGet (mergedParams P) "requestBody" ∧
    objHas (paramsAfterBody P) "requestBody" = false ∧
    objHas (paramsAfterBody P) "resource" = true := by
  refine ⟨?_, ?_, ?_⟩
  · unfold resourceBody
    rw [ht]
    rfl
  · exact objHas_objDelete_self _ _
  · simp [paramsAfterBody, ht,
      objHas_objDelete_ne _ _ _ (by decide : "requestBody" ≠ "resource"), hres]

/-- C2 witness: the amended statement at the concrete two-key map. -/
theorem claim_C2_witness :
    objHas (mergedParams descBodyBoth) "requestBody" = true ∧
    truthy (objGet (mergedParams descBodyBoth) "requestBody") = true ∧
    resourceBody descBodyBoth = objGet (mergedParams descBodyBoth) "requestBody" ∧
    objHas (paramsAfterBody descBodyBoth) "requestBody" = false ∧
    objHas (paramsAfterBody descBodyBoth) "resource" = true :=
  ⟨rfl, rfl,
    (claim_C2_amended descBodyBoth rfl rfl rfl).1,
    (claim_C2_amended descBodyBoth rfl rfl rfl).2.1,
    (claim_C2_amended descBodyBoth rfl rfl rfl).2.2⟩

/-- C3: multipart assembly with string media body `hello`, JSON metadata
`\x7b"title":"t"\x7d`, default MIME type `application/octet-stream` and
boundary token `B` pushes exactly the preamble/body/CRLF sequence of the two
parts followed immediately by the closing delimiter (the media body is a
string, so the terminator is emitted at once and the stream ends). -/
theorem claim_C3 (B : String) :
    String.join (multipartChunks (.vObj [("title", .vStr "t")])
        (.vObj [("body", .vStr "hello")]) "application/octet-stream" B) =
      "--" ++ B ++ "\r\nContent-Type: application/json\r\n\r\n\x7b\"title\":\"t\"\x7d\r\n--" ++
        B ++ "\r\nContent-Type: application/octet-stream\r\n\r\nhello\r\n--" ++ B ++ "--" := by
  have hjson : jsonStringify (.vObj [("title", .vStr "t")]) = "\x7b\"title\":\"t\"\x7d" := rfl
  apply String.ext
  simp [multipartChunks, hjson, jsOr, jsAnd, vGetField, objGet, truthy, valueToString,
    String.join, String.data_append]

/-- C4: whenever at least one required parameter name resolves to
`undefined` in the parameter map obtained after merging, body/media/auth/
headers extraction and un-aliasing, the pipeline fails with the
missing-parameters error carrying exactly the missing names in
`requiredParams` order, for EVERY environment (so before URL expansion,
query construction or dispatch, none of which can influence or observe the
failure), and the caller descriptor is left untouched. -/
theorem claim_C4 (P : APIRequestParams)
    (h : ∃ q ∈ P.requiredParams, isUndefined (objGet (paramsUnaliased P) q) = true) :
    ∀ env, createAPIRequestAsync env P =
      (.error (.missingParams
        (P.requiredParams.filter (fun p => isUndefined (objGet (paramsUnaliased P) p)))), P) := by
  intro env
  have hmOf : missingOf P = some
      (P.requiredParams.filter (fun p => isUndefined (objGet (paramsUnaliased P) p))) := by
    unfold missingOf getMissingParams
    obtain ⟨q, hq, hqu⟩ := h
    have hmem : q ∈ P.requiredParams.filter
        (fun p => isUndefined (objGet (paramsUnaliased P) p)) :=
      List.mem_filter.mpr ⟨hq, hqu⟩
    rw [if_pos (List.length_pos.mpr (List.ne_nil_of_mem hmem))]
  unfold createAPIRequestAsync
  rw [hmOf]

/-- C4 witness: with `requiredParams = ["id"]` and no `id` anywhere, the
pipeline fails with exactly `["id"]`. -/
theorem claim_C4_witness :
    isUndefined (objGet (paramsUnaliased descMissingId) "id") = true ∧
    createAPIRequestAsync env0 descMissingId =
      (.error (.missingParams ["id"]), descMissingId) :=
  ⟨rfl, claim_C4 descMissingId ⟨"id", by simp [descMissingId], rfl⟩ env0⟩


/-- C5 counterexample: on a non-browser target the generated
`Accept-Encoding: gzip` header is written AFTER the merge of caller headers,
overriding the caller-supplied `Accept-Encoding: identity`, contradicting
the claim that a caller-supplied header value is never overridden by a
generated one. -/
theorem claim_C5_counterexample :
    objGet (userHeaders descHeaderAE) "Accept-Encoding" = .vStr "identity" ∧
    env0.isBrowser = false ∧
    (createAPIRequestAsync env0 descHeaderAE).1 = .ok (buildResolved env0 descHeaderAE) ∧
    objGet ((buildResolved env0 descHeaderAE).mergedOptions.headers.getD [])
      "Accept-Encoding" = .vStr "gzip" :=
  ⟨rfl, rfl, rfl, rfl⟩

/-- C5 (amended): caller-supplied headers are deep-merged over the
base-option headers and survive into the final merged options — caller wins
— EXCEPT for the generated headers, which are written after the merge and do
override the caller: `Content-Type` (media/multipart branches),
`Accept-Encoding` and `User-Agent` (non-browser).  For every other header
name carrying a string value, the caller-supplied value is the final
value. -/
theorem claim_C5_amended (P : APIRequestParams) (hname v : String)
    (h1 : objGet (userHeaders P) hname = .vStr v)
    (hn1 : (objKeys (userHeaders P)).Nodup)
    (hn2 : (objKeys (P.options.headers.getD [])).Nodup)
    (hct : hname ≠ "Content-Type") (hae : hname ≠ "Accept-Encoding")
    (hua : hname ≠ "User-Agent") :
    ∀ env, objGet ((mergedOptionsOf env P).headers.getD []) hname = .vStr v := by
  intro env
  have hbranch : objGet (headersAfterMediaBranch env P) hname = .vStr v := by
    unfold headersAfterMediaBranch
    split
    · split
      · rw [objGet_objSet_ne _ _ _ _ (Ne.symm hct)]
        exact h1
      · rw [objGet_objSet_ne _ _ _ _ (Ne.symm hct)]
        exact h1
    · exact h1
  have hbranchNodup : (objKeys (headersAfterMediaBranch env P)).Nodup := by
    unfold headersAfterMediaBranch
    split
    · split
      · exact nodup_objKeys_objSet _ _ _ hn1
      · exact nodup_objKeys_objSet _ _ _ hn1
    · exact hn1
  have hext : objGet (extendDeep (P.options.headers.getD [])
      (headersAfterMediaBranch env P)) hname = .vStr v :=
    objGet_extendDeep_vStr _ _ _ _ hbranchNodup hbranch
  have hextNodup : (objKeys (extendDeep (P.options.headers.getD [])
      (headersAfterMediaBranch env P))).Nodup :=
    nodup_objKeys_extendDeep _ _ hn2
  have hassembled : objGet (headersAssembled env P) hname = .vStr v := by
    unfold headersAssembled
    by_cases hb : env.isBrowser
    · simp only [hb, if_true]
      exact hext
    · simp only [hb, if_false, Bool.false_eq_true]
      rw [objGet_objSet_ne _ _ _ _ (Ne.symm hua), objGet_objSet_ne _ _ _ _ (Ne.symm hae)]
      exact hext
  have hassembledNodup : (objKeys (headersAssembled env P)).Nodup := by
    unfold headersAssembled
    by_cases hb : env.isBrowser
    · simp only [hb, if_true]
      exact hextNodup
    · simp only [hb, if_false, Bool.false_eq_true]
      exact nodup_objKeys_objSet _ _ _ (nodup_objKeys_objSet _ _ _ hextNodup)
  have hfin : (mergedOptionsOf env P).headers =
      some (extendDeep
        ((extendGOpts
          (extendGOpts {}
            (match P.context.google with
             | some g => g._options
             | none => {}))
          (ctxOptionsAfterStrip P)).headers.getD [])
        (headersAssembled env P)) := rfl
  rw [hfin, Option.getD_some]
  exact objGet_extendDeep_vStr _ _ _ _ hassembledNodup hassembled

/-- C5 witness: a custom caller header (not among the generated names)
survives to the final merged headers. -/
theorem claim_C5_witness :
    objGet (userHeaders descHeaderCustom) "X-Custom" = .vStr "7" ∧
    objGet ((mergedOptionsOf env0 descHeaderCustom).headers.getD []) "X-Custom" = .vStr "7" :=
  ⟨rfl,
    claim_C5_amended descHeaderCustom "X-Custom" "7" rfl (by decide) (by decide)
      (by decide) (by decide) (by decide) env0⟩

/-- C6 counterexample: a parameter named `x__` (two trailing alias markers)
survives un-aliasing as `x_`, so the successfully resolved parameter map
contains a key ending in the alias marker, contradicting the first
invariant of the claim. -/
theorem claim_C6_counterexample :
    (createAPIRequestAsync env0 descDoubleMark).1 = .ok (buildResolved env0 descDoubleMark) ∧
    objHas (buildResolved env0 descDoubleMark).params "x_" = true ∧
    lastCharIsUnderscore "x_" = true :=
  ⟨rfl, rfl, rfl⟩

/-- C6 (amended): on every input on which resolution succeeds, provided (i)
every alias-marked key present at the un-aliasing stage strips to an
unmarked base name (a single trailing marker) and (ii) `key` and
`uploadType` — the two names the routine re-injects after path stripping —
are not declared path parameters, the resolved map contains no key ending in
the alias marker, contains no declared path parameter, and holds a
non-`undefined` value for every required name that is not itself a path
parameter (a required name that IS a path parameter passes the check but is
then deliberately stripped from the map). -/
theorem claim_C6_amended (env : Env) (P : APIRequestParams) (r : ResolvedRequest)
    (hrun : (createAPIRequestAsync env P).1 = .ok r)
    (hstrip : ∀ k ∈ objKeys (paramsNoHeaders P), lastCharIsUnderscore k = true →
      lastCharIsUnderscore (stripLast k) = false)
    (hkey : "key" ∉ P.pathParams) (hup : "uploadType" ∉ P.pathParams) :
    (∀ k ∈ objKeys r.params, lastCharIsUnderscore k = false) ∧
    (∀ k ∈ objKeys r.params, k ∉ P.pathParams) ∧
    (∀ q ∈ P.requiredParams, q ∉ P.pathParams → isUndefined (objGet r.params q) = false) := by
  obtain ⟨hm, hr⟩ := createAPIRequestAsync_ok env P r hrun
  subst hr
  have hparams : (buildResolved env P).params = resolvedParamsFinal env P := rfl
  rw [hparams]
  refine ⟨?_, ?_, ?_⟩
  · intro k hk
    rcases mem_objKeys_resolvedParamsFinal env P k hk with hk' | hk'
    · rcases mem_objKeys_paramsWithKey P k hk' with ⟨hk'', _⟩ | hk''
      · exact unalias_no_marked _ hstrip k hk''
      · subst hk''
        decide
    · subst hk'
      decide
  · intro k hk
    rcases mem_objKeys_resolvedParamsFinal env P k hk with hk' | hk'
    · rcases mem_objKeys_paramsWithKey P k hk' with ⟨_, hk''⟩ | hk''
      · exact hk''
      · subst hk''
        exact hkey
    · subst hk'
      exact hup
  · intro q hq hqp
    have hpresent := required_not_undef_of_missing_none P q hm hq
    have hstrippedGet : objGet (paramsStripped P) q = objGet (paramsUnaliased P) q :=
      objGet_foldl_objDelete_not_mem _ _ _ hqp
    have hwk : isUndefined (objGet (paramsWithKey P) q) = false := by
      by_cases hqk : q = "key"
      · subst hqk
        unfold paramsWithKey
        split
        · rw [objGet_objSet_self]
          by_cases ht : truthy (objGet (paramsStripped P) "key") = true
          · simpa [jsOr, ht] using isUndefined_eq_false_of_truthy _ ht
          · simp [jsOr, ht, isUndefined]
        · rw [hstrippedGet]
          exact hpresent
      · rw [objGet_paramsWithKey_ne P q hqk, hstrippedGet]
        exact hpresent
    by_cases hqu : q = "uploadType"
    · subst hqu
      unfold resolvedParamsFinal
      split
      · split
        · rw [objGet_objSet_self]
          rfl
        · rw [objGet_objSet_self]
          rfl
      · exact hwk
    · rw [objGet_resolvedParamsFinal_ne env P q hqu]
      exact hwk

/-- C6 witness: the amended invariants on a concrete successful resolution
with a single-marker alias, a required parameter, and a path parameter. -/
theorem claim_C6_witness :
    (∀ k ∈ objKeys (buildResolved env0 descAliasReq).params, lastCharIsUnderscore k = false) ∧
    (∀ k ∈ objKeys (buildResolved env0 descAliasReq).params, k ∉ descAliasReq.pathParams) ∧
    (∀ q ∈ descAliasReq.requiredParams, q ∉ descAliasReq.pathParams →
      isUndefined (objGet (buildResolved env0 descAliasReq).params q) = false) :=
  claim_C6_amended env0 descAliasReq (buildResolved env0 descAliasReq) rfl (by decide)
    (by decide) (by decide)

/-- C7 counterexample: the claim is universal over every marked key, but
with chained markers the sequential snapshot loop cascades: on
`\x7ba__: "1", a_: "2"\x7d` the marked key `a_` is NOT renamed carrying its
value — processing `a__` first overwrites `a_` with `"1"`, and processing
`a_` then moves that value to `a`, so the final map is `\x7ba: "1"\x7d`: the
value `"2"` of the marked key `a_` is lost (its base `a` holds `"1"`), and
the rename target `a_` of `a__` is absent from the output. -/
theorem claim_C7_counterexample :
    objHas aliasChainW "a_" = true ∧
    lastCharIsUnderscore "a_" = true ∧
    objGet aliasChainW "a_" = .vStr "2" ∧
    unalias aliasChainW = [("a", .vStr "1")] ∧
    objGet (unalias aliasChainW) (stripLast "a_") = .vStr "1" ∧
    objHas (unalias aliasChainW) (stripLast "a__") = false :=
  ⟨rfl, rfl, rfl, rfl, rfl, rfl⟩

/-- C7 (amended): provided no alias-marked key strips to a name that itself
still ends in the marker (no chained markers such as `a__`), un-aliasing
renames EVERY marked key by stripping the trailing marker: the base name
holds the marked key's value (overwriting any existing unmarked key of that
base name), the marked key is removed, and every unmarked key that is not
the base of some marked key keeps its value; and, through the whole
pipeline, a parameter literally named `resource_` with no conflicting
`resource` resolves to a map containing `resource` with that value and not
containing `resource_`. -/
theorem claim_C7_amended :
    (∀ (m : JsObj),
      (objKeys m).Nodup →
      (∀ k ∈ objKeys m, lastCharIsUnderscore k = true →
        lastCharIsUnderscore (stripLast k) = false) →
      (∀ K ∈ objKeys m, lastCharIsUnderscore K = true →
        objGet (unalias m) (stripLast K) = objGet m K ∧
        objHas (unalias m) K = false) ∧
      (∀ q, lastCharIsUnderscore q = false →
        (∀ K ∈ objKeys m, lastCharIsUnderscore K = true → stripLast K ≠ q) →
        objGet (unalias m) q = objGet m q)) ∧
    (∀ (env : Env) (v : Value),
      objGet (resolvedParamsFinal env { params := [("resource_", v)] }) "resource" = v ∧
      objHas (resolvedParamsFinal env { params := [("resource_", v)] }) "resource_" = false ∧
      (createAPIRequestAsync env { params := [("resource_", v)] }).1 =
        .ok (buildResolved env { params := [("resource_", v)] })) := by
  constructor
  · intro m hnd h1
    have h2 : ∀ k1 ∈ objKeys m, ∀ k2 ∈ objKeys m, lastCharIsUnderscore k1 = true →
        lastCharIsUnderscore k2 = true → k1 ≠ k2 → stripLast k1 ≠ stripLast k2 := by
      intro k1 _ k2 _ hm1 hm2 hne he
      exact hne (marked_stripLast_inj k1 k2 hm1 hm2 he)
    obtain ⟨s1, s2, s3⟩ := unalias_fold_spec (objKeys m) hnd h1 h2 m
    exact ⟨fun K hK hmK => ⟨s1 K hK hmK, s2 K hK hmK⟩, s3⟩
  · intro env v
    exact ⟨rfl, rfl, rfl⟩

/-- C7 witness: the amended un-aliasing contract at a concrete map holding
the marked key `a_` and the unrelated key `b`. -/
theorem claim_C7_witness :
    objGet (unalias aliasMapW) (stripLast "a_") = objGet aliasMapW "a_" ∧
    objHas (unalias aliasMapW) "a_" = false ∧
    objGet (unalias aliasMapW) "b" = objGet aliasMapW "b" :=
  ⟨((claim_C7_amended.1 aliasMapW (by decide) (by decide)).1 "a_" (by decide) rfl).1,
   ((claim_C7_amended.1 aliasMapW (by decide) (by decide)).1 "a_" (by decide) rfl).2,
   (claim_C7_amended.1 aliasMapW (by decide) (by decide)).2 "b" rfl (by decide)⟩

/-- C8 counterexample: with a `key` entry PRESENT in the map (holding the
empty string) and a string credential, the credential still overwrites the
caller-provided `key` — the source gates the injection on truthiness of the
existing value, not on key presence — contradicting the claim that the
string is injected only if no `key` entry is already present. -/
theorem claim_C8_counterexample :
    objHas (mergedParams descKeyAuth) "key" = true ∧
    objGet (mergedParams descKeyAuth) "key" = .vStr "" ∧
    authClient0 descKeyAuth = .vStr "AK" ∧
    (createAPIRequestAsync env0 descKeyAuth).1 = .ok (buildResolved env0 descKeyAuth) ∧
    objGet (buildResolved env0 descKeyAuth).params "key" = .vStr "AK" :=
  ⟨rfl, rfl, rfl, rfl, rfl⟩

/-- C8 (amended): a string credential is injected under `key` only when the
existing `key` value is FALSY (absent, `undefined`, empty string, ...); a
truthy caller-provided `key` wins; the credential is then cleared and
dispatch uses the default unauthenticated transporter. -/
theorem claim_C8_amended (P : APIRequestParams) (s : String)
    (ha : authClient0 P = .vStr s) :
    (truthy (objGet (paramsStripped P) "key") = true →
      ∀ env, objGet (resolvedParamsFinal env P) "key" = objGet (paramsStripped P) "key") ∧
    (truthy (objGet (paramsStripped P) "key") = false →
      ∀ env, objGet (resolvedParamsFinal env P) "key" = .vStr s) ∧
    authClient1 P = .vUndefined ∧
    executorOf P = .defaultTransporter := by
  have hwk : paramsWithKey P =
      objSet (paramsStripped P) "key" (jsOr (objGet (paramsStripped P) "key") (.vStr s)) := by
    unfold paramsWithKey
    rw [ha]
  have hget : ∀ env, objGet (resolvedParamsFinal env P) "key" =
      jsOr (objGet (paramsStripped P) "key") (.vStr s) := by
    intro env
    rw [objGet_resolvedParamsFinal_ne env P "key" (by decide), hwk, objGet_objSet_self]
  refine ⟨?_, ?_, ?_, ?_⟩
  · intro ht env
    rw [hget env]
    simp [jsOr, ht]
  · intro ht env
    rw [hget env]
    simp [jsOr, ht]
  · unfold authClient1
    rw [ha]
  · unfold executorOf authClient1
    rw [ha]

/-- C8 witness: the amended behavior at the concrete descriptor whose `key`
entry is the (falsy) empty string. -/
theorem claim_C8_witness :
    authClient0 descKeyAuth = .vStr "AK" ∧
    truthy (objGet (paramsStripped descKeyAuth) "key") = false ∧
    objGet (resolvedParamsFinal env0 descKeyAuth) "key" = .vStr "AK" ∧
    executorOf descKeyAuth = .defaultTransporter :=
  ⟨rfl, rfl, (claim_C8_amended descKeyAuth "AK" rfl).2.1 rfl env0,
    (claim_C8_amended descKeyAuth "AK" rfl).2.2.2⟩

/-- C9 counterexample: the caller descriptor is NOT left unchanged.  Three
caller-visible mutations beyond the documented store exception: the routine
overwrites `parameters.mediaUrl` with its template expansion (line 150), so
a descriptor entering with `mediaUrl = "http://u"` leaves with the
expander's output; the caller's `options.headers` object (aliased through
the line-72 shallow copy) is mutated in place by the line-239 `extend` merge
and the line-242/258 generated-header writes, so a caller headers object
`\x7bX-Base: "1"\x7d` afterwards also carries `Accept-Encoding: gzip`; and
the caller's `options.userAgentDirectives` array receives the pushed client
directive of line 244. -/
theorem claim_C9_counterexample :
    descMediaUrl.mediaUrl = some "http://u" ∧
    (createAPIRequestAsync envExpand descMediaUrl).2.mediaUrl = some "EXPANDED" ∧
    descOptsHeaders.options.headers = some [("X-Base", .vStr "1")] ∧
    objGet (((createAPIRequestAsync env0 descOptsHeaders).2.options.headers).getD [])
      "Accept-Encoding" = .vStr "gzip" ∧
    objHas (((createAPIRequestAsync env0 descOptsHeaders).2.options.headers).getD [])
      "X-Base" = true ∧
    descOptsUA.options.userAgentDirectives = some [] ∧
    (createAPIRequestAsync env0 descOptsUA).2.options.userAgentDirectives =
      some [{ product := "google-api-nodejs-client", version := "1.0.0",
              comment := some "gzip" }] :=
  ⟨rfl, rfl, rfl, rfl, rfl, rfl, rfl⟩

/-- C9 (amended): a full frame accounting of the caller-visible descriptor.
On every input, the descriptor's `params` (rawParams, at own-property
granularity), `options.url` (urlTemplate), the other per-call option slots
(`options.params`, `options.auth`, `options.data`, `options.validateStatus`,
`options.retry`), `requiredParams`, `pathParams` and the google context are
unchanged; the caller-visible mutations are exactly: `mediaUrl` (overwritten
with its expansion on success), the content of a caller-supplied
`options.headers` object (which becomes the fully assembled header map), the
content of a caller-supplied `options.userAgentDirectives` array (which
receives the pushed client directive on non-browser targets), and the
per-client default-params store (path parameters removed — the documented
exception).  On the validation-failure path nothing at all is mutated. -/
theorem claim_C9_amended (env : Env) (P : APIRequestParams) :
    (createAPIRequestAsync env P).2.params = P.params ∧
    (createAPIRequestAsync env P).2.options.url = P.options.url ∧
    (createAPIRequestAsync env P).2.options.params = P.options.params ∧
    (createAPIRequestAsync env P).2.options.auth = P.options.auth ∧
    (createAPIRequestAsync env P).2.options.data = P.options.data ∧
    (createAPIRequestAsync env P).2.options.validateStatus = P.options.validateStatus ∧
    (createAPIRequestAsync env P).2.options.retry = P.options.retry ∧
    (createAPIRequestAsync env P).2.requiredParams = P.requiredParams ∧
    (createAPIRequestAsync env P).2.pathParams = P.pathParams ∧
    (createAPIRequestAsync env P).2.context.google = P.context.google ∧
    (createAPIRequestAsync env P).2.mediaUrl =
      (match missingOf P with
       | some _ => P.mediaUrl
       | none => expandedMediaUrl env P) ∧
    (createAPIRequestAsync env P).2.options.headers =
      (match missingOf P with
       | some _ => P.options.headers
       | none =>
          match P.options.headers with
          | some _ => some (headersAssembled env P)
          | none => none) ∧
    (createAPIRequestAsync env P).2.options.userAgentDirectives =
      (match missingOf P with
       | some _ => P.options.userAgentDirectives
       | none =>
          if env.isBrowser then P.options.userAgentDirectives
          else
            match P.options.userAgentDirectives with
            | some _ => some (uaPushed env P)
            | none => none) ∧
    (createAPIRequestAsync env P).2.context._options =
      (match missingOf P with
       | some _ => P.context._options
       | none => { P.context._options with params := ctxParamsStripped P }) := by
  unfold createAPIRequestAsync
  cases hm : missingOf P with
  | some l =>
      exact ⟨rfl, rfl, rfl, rfl, rfl, rfl, rfl, rfl, rfl, rfl, rfl, rfl, rfl, rfl⟩
  | none =>
      exact ⟨rfl, rfl, rfl, rfl, rfl, rfl, rfl, rfl, rfl, rfl, rfl, rfl, rfl, rfl⟩

/-- C10: without a callback, `createAPIRequest` returns the promise of the
underlying async pipeline; with a callback it returns void and the callback
is invoked exactly once — with `null` error and the response on success, or
with the error (and no response argument) on failure — both conventions
running the same `createAPIRequestAsync` resolution. -/
theorem claim_C10 (env : Env) (P : APIRequestParams) :
    createAPIRequest env P false = .promise ((createAPIRequestAsync env P).1) ∧
    createAPIRequest env P true =
      .voidReturn (callbackCalls ((createAPIRequestAsync env P).1)) ∧
    (callbackCalls ((createAPIRequestAsync env P).1)).length = 1 ∧
    (∀ r, (createAPIRequestAsync env P).1 = .ok r →
      callbackCalls ((createAPIRequestAsync env P).1) = [{ err := none, res := some r }]) ∧
    (∀ e, (createAPIRequestAsync env P).1 = .error e →
      callbackCalls ((createAPIRequestAsync env P).1) = [{ err := some e, res := none }]) := by
  refine ⟨rfl, rfl, ?_, ?_, ?_⟩
  · cases h : (createAPIRequestAsync env P).1 <;> simp [callbackCalls]
  · intro r h
    rw [h]
    rfl
  · intro e h
    rw [h]
    rfl

/-- C10 witness: on a successful concrete resolution the callback
convention yields exactly one `(null, response)` invocation. -/
theorem claim_C10_witness :
    createAPIRequest env0 descPlain true =
      .voidReturn [{ err := none, res := some (buildResolved env0 descPlain) }] := by
  have h := claim_C10 env0 descPlain
  exact h.2.1.trans (congrArg CallResult.voidReturn (h.2.2.2.1 _ rfl))

end ApiRequest
